import Mathlib

/-!
Verification of the gsio-net ledger core and peer-to-peer dispatch layer
(crates/gsio-node/src/ledger.rs and crates/gsio-node/src/p2p.rs), as a
shallow embedding in Lean.

Modelling conventions:
* SHA-256 hex digests are modelled by the injective function `hashStr`;
  the development relies only on the digest being a deterministic,
  collision-free function of the hashed bytes.
* Timestamps (`chrono::DateTime<Utc>`) are modelled as `Nat` millisecond
  values; `Utc::now()` becomes an explicit `now : Nat` argument.  The
  RFC-3339 rendering used by `calculate_hash` is modelled by the
  injective function `to_rfc3339`; only its injectivity is used.
* `serde_json::Value` data payloads are modelled by their serialized
  text (`String`); `data.to_string()` is then the identity.
* `HashMap` is modelled by an association list with overwrite-on-insert
  (`mapInsert`), `HashSet` by a duplicate-free insert on `List String`.
  Iteration order of the pending pool is its insertion order, a
  deterministic refinement of the source's unspecified `HashMap` order.
-/

namespace Gsio

/-- Genesis sentinel, the Rust expression `"0".repeat(64)`. -/
def zeros64 : String := String.mk (List.replicate 64 '0')

/-- Injective stand-in for the SHA-256 hex digest of a byte string. -/
def hashStr (s : String) : String := "#" ++ s

/-- Injective stand-in for the RFC-3339 rendering of a timestamp
(`DateTime::to_rfc3339`); the development uses only its injectivity. -/
def to_rfc3339 (t : Nat) : String := String.mk (List.replicate t 'T')

/-- Overwrite-on-insert for an association list, modelling
`HashMap::insert` (the value of an existing key is replaced in place,
a new key is appended). -/
def mapInsert {α : Type} (m : List (String × α)) (k : String) (v : α) :
    List (String × α) :=
  if m.any (fun p => p.1 == k) then
    m.map (fun p => if p.1 == k then (k, v) else p)
  else
    m ++ [(k, v)]

/-- A single entry in the distributed ledger (`LedgerEntry` in ledger.rs). -/
structure LedgerEntry where
  id : String
  timestamp : Nat
  data : String
  previous_hash : String
  hash : String
  creator_node_id : String
  signatures : List (String × String)
deriving DecidableEq, Repr

/-- Digest of the entry fields, mirroring `LedgerEntry::calculate_hash`:
the hasher is updated with `id`, the RFC-3339 timestamp, the serialized
`data`, `previous_hash` and `creator_node_id`, in this order, which is
the digest of their concatenation. -/
def LedgerEntry.calculate_hash (e : LedgerEntry) : String :=
  hashStr (e.id ++ (to_rfc3339 e.timestamp ++ (e.data ++
    (e.previous_hash ++ e.creator_node_id))))

/-- Constructor mirroring `LedgerEntry::new`: the id is
`{creator}-{timestamp_millis}`, the hash is computed from the fields. -/
def LedgerEntry.new (data : String) (previous_hash : String)
    (creator_node_id : String) (now : Nat) : LedgerEntry :=
  let e : LedgerEntry :=
    { id := creator_node_id ++ "-" ++ toString now
      timestamp := now
      data := data
      previous_hash := previous_hash
      hash := ""
      creator_node_id := creator_node_id
      signatures := [] }
  { e with hash := e.calculate_hash }

/-- Mirrors `LedgerEntry::add_signature`: insert into the signatures map. -/
def LedgerEntry.add_signature (e : LedgerEntry) (node_id sig : String) :
    LedgerEntry :=
  { e with signatures := mapInsert e.signatures node_id sig }

/-- Mirrors `LedgerEntry::is_valid`: the stored hash equals the
recomputed digest. -/
def LedgerEntry.is_valid (e : LedgerEntry) : Bool :=
  e.hash == e.calculate_hash

/-- The ledger state (`Ledger` in ledger.rs). -/
structure Ledger where
  entries : List LedgerEntry
  node_id : String
  pending_entries : List (String × LedgerEntry)
  known_nodes : List String
deriving DecidableEq, Repr

/-- Mirrors `Ledger::new`: empty chain and pool, known nodes seeded with
the local node id. -/
def Ledger.new (node_id : String) : Ledger :=
  { entries := []
    node_id := node_id
    pending_entries := []
    known_nodes := [node_id] }

/-- Mirrors `Ledger::add_entry`: the previous hash is the tip's hash, or
the genesis sentinel on an empty chain; the new entry is appended and
returned in `Ok`.  `Utc::now()` is the explicit `now` argument. -/
def Ledger.add_entry (l : Ledger) (data : String) (now : Nat) :
    Ledger × Except String LedgerEntry :=
  let previous_hash :=
    match l.entries.getLast? with
    | some e => e.hash
    | none => zeros64
  let entry := LedgerEntry.new data previous_hash l.node_id now
  ({ l with entries := l.entries ++ [entry] }, Except.ok entry)

/-- Mirrors `Ledger::add_pending_entry`: insert into the pool keyed by id. -/
def Ledger.add_pending_entry (l : Ledger) (e : LedgerEntry) : Ledger :=
  { l with pending_entries := mapInsert l.pending_entries e.id e }

/-- Stable insertion by ascending timestamp. -/
def insertByTimestamp (e : LedgerEntry) :
    List LedgerEntry → List LedgerEntry
  | [] => [e]
  | x :: xs =>
    if e.timestamp ≤ x.timestamp then e :: x :: xs
    else x :: insertByTimestamp e xs

/-- Stable sort by ascending timestamp, modelling
`sort_by(|a, b| a.timestamp.cmp(&b.timestamp))`. -/
def sortByTimestamp : List LedgerEntry → List LedgerEntry
  | [] => []
  | x :: xs => insertByTimestamp x (sortByTimestamp xs)

/-- The processing loop of `Ledger::process_pending_entries`: for each
selected entry in order, if it is valid, push it onto the chain, remove
it from the pool, and record it in the returned list. -/
def Ledger.processLoop : List LedgerEntry → Ledger → Ledger × List LedgerEntry
  | [], l => (l, [])
  | e :: rest, l =>
    if e.is_valid then
      let l1 : Ledger :=
        { l with
          entries := l.entries ++ [e]
          pending_entries :=
            l.pending_entries.filter (fun p => !(p.1 == e.id)) }
      let r := Ledger.processLoop rest l1
      (r.1, e :: r.2)
    else
      Ledger.processLoop rest l

/-- Mirrors `Ledger::process_pending_entries`: on an empty chain return
immediately; otherwise select the pending entries whose `previous_hash`
equals the tip's hash (captured once), sort them by timestamp, and run
the processing loop. -/
def Ledger.process_pending_entries (l : Ledger) : Ledger × List LedgerEntry :=
  match l.entries.getLast? with
  | none => (l, [])
  | some last_entry =>
    let toProcess :=
      (l.pending_entries.map (fun p => p.2)).filter
        (fun e => e.previous_hash == last_entry.hash)
    Ledger.processLoop (sortByTimestamp toProcess) l

/-- Mirrors `Ledger::add_known_node`: `HashSet::insert` semantics. -/
def Ledger.add_known_node (l : Ledger) (node_id : String) : Ledger :=
  { l with known_nodes :=
      if node_id ∈ l.known_nodes then l.known_nodes
      else node_id :: l.known_nodes }

/-- Hash of the current tip, or the genesis sentinel on an empty chain:
the `previous_hash` computation at the top of `Ledger::add_entry`. -/
def tipHash (l : Ledger) : String :=
  match l.entries.getLast? with
  | some e => e.hash
  | none => zeros64

/-- Hash-chain well-formedness of adjacent entries: each entry's
`previous_hash` is the hash of the entry before it. -/
def chainLinked : List LedgerEntry → Bool
  | [] => true
  | [_] => true
  | a :: b :: rest => (b.previous_hash == a.hash) && chainLinked (b :: rest)

/-- The chain invariant of the spec: the first entry points at the
genesis sentinel and every later entry points at its predecessor. -/
def chainOk (es : List LedgerEntry) : Bool :=
  match es with
  | [] => true
  | e :: _ => (e.previous_hash == zeros64) && chainLinked es

/-- Ledger states reachable by any sequence of `add_entry`,
`add_pending_entry`, `process_pending_entries` and `add_known_node`
calls from a fresh `Ledger::new`. -/
inductive Reach : Ledger → Prop where
  | new (node_id : String) : Reach (Ledger.new node_id)
  | add_entry (l : Ledger) (data : String) (now : Nat) :
      Reach l → Reach (l.add_entry data now).1
  | add_pending (l : Ledger) (e : LedgerEntry) :
      Reach l → Reach (l.add_pending_entry e)
  | process (l : Ledger) :
      Reach l → Reach l.process_pending_entries.1
  | add_known (l : Ledger) (n : String) :
      Reach l → Reach (l.add_known_node n)

/-! Helper lemmas about strings and the digest stand-ins. -/

theorem str_append_left_cancel {a b c : String} (h : a ++ b = a ++ c) :
    b = c := by
  have hd : a.data ++ b.data = a.data ++ c.data := by
    have := congrArg String.data h
    simpa using this
  exact String.ext (List.append_cancel_left hd)

theorem str_append_right_cancel {a b c : String} (h : a ++ c = b ++ c) :
    a = b := by
  have hd : a.data ++ c.data = b.data ++ c.data := by
    have := congrArg String.data h
    simpa using this
  exact String.ext (List.append_cancel_right hd)

theorem hashStr_inj {a b : String} (h : hashStr a = hashStr b) : a = b :=
  str_append_left_cancel h

theorem to_rfc3339_inj {a b : Nat} (h : to_rfc3339 a = to_rfc3339 b) :
    a = b := by
  unfold to_rfc3339 at h
  have : List.replicate a 'T' = List.replicate b 'T' := by
    injection h
  simpa using congrArg List.length this

/-! Helper lemmas about the association-list map. -/

/-- Lookup in an association-list map, `HashMap::get`. -/
def mapGet {α : Type} (m : List (String × α)) (k : String) : Option α :=
  (m.find? (fun p => p.1 == k)).map (fun p => p.2)

theorem mapGet_mapInsert_self {α : Type} (m : List (String × α))
    (k : String) (v : α) : mapGet (mapInsert m k v) k = some v := by
  unfold mapInsert
  by_cases hany : m.any (fun p => p.1 == k)
  · simp only [hany, if_true]
    induction m with
    | nil => simp at hany
    | cons p rest ih =>
      by_cases hp : p.1 = k
      · simp [mapGet, List.find?, hp]
      · have hp2 : (p.1 == k) = false := by simp [hp]
        have hrest : rest.any (fun p => p.1 == k) = true := by
          simp only [List.any_cons, hp2, Bool.false_or] at hany
          exact hany
        simpa [mapGet, List.find?, hp2] using ih hrest
  · simp only [hany]
    have hnone : m.find? (fun p => p.1 == k) = none := by
      rw [List.find?_eq_none]
      intro p hp
      simp only [List.any_eq_true, not_exists, not_and] at hany
      simp [hany p hp]
    simp [mapGet, List.find?_append, hnone]

theorem mapGet_mapInsert_ne {α : Type} (m : List (String × α))
    (k k2 : String) (v : α) (h : k2 ≠ k) :
    mapGet (mapInsert m k v) k2 = mapGet m k2 := by
  unfold mapInsert
  by_cases hany : m.any (fun p => p.1 == k)
  · simp only [hany, if_true]
    clear hany
    induction m with
    | nil => simp [mapGet]
    | cons p rest ih =>
      by_cases hp : p.1 = k
      · have hk2 : (k == k2) = false := by
          simp [(Ne.symm h)]
        have hp2 : (p.1 == k2) = false := by
          simp [hp, Ne.symm h]
        simp [mapGet, List.find?, hp, hk2, hp2] at ih ⊢
        exact ih
      · have hpb : (p.1 == k) = false := by simp [hp]
        by_cases hq : p.1 = k2
        · have hqb : (p.1 == k2) = true := by simp [hq]
          simp [mapGet, List.find?, hpb, hqb]
        · have hqb : (p.1 == k2) = false := by simp [hq]
          simp [mapGet, List.find?, hpb, hqb] at ih ⊢
          exact ih
  · simp only [hany]
    have hk2 : ((k, v).1 == k2) = false := by simp [Ne.symm h]
    by_cases hfind : (m.find? (fun p => p.1 == k2)).isSome
    · obtain ⟨p, hp⟩ := Option.isSome_iff_exists.mp hfind
      simp [mapGet, List.find?_append, hp]
    · have hnone : m.find? (fun p => p.1 == k2) = none := by
        cases hcase : m.find? (fun p => p.1 == k2) with
        | none => rfl
        | some p => rw [hcase] at hfind; simp at hfind
      simp [mapGet, List.find?_append, hnone, List.find?, hk2]

/-! Helper lemmas about the timestamp sort and the processing loop. -/

theorem mem_insertByTimestamp {e a : LedgerEntry} {xs : List LedgerEntry} :
    e ∈ insertByTimestamp a xs ↔ e = a ∨ e ∈ xs := by
  induction xs with
  | nil => simp [insertByTimestamp]
  | cons x rest ih =>
    by_cases hle : a.timestamp ≤ x.timestamp
    · simp [insertByTimestamp, hle]
    · simp only [insertByTimestamp, if_neg hle, List.mem_cons, ih]
      tauto

theorem mem_sortByTimestamp {e : LedgerEntry} {xs : List LedgerEntry} :
    e ∈ sortByTimestamp xs ↔ e ∈ xs := by
  induction xs with
  | nil => simp [sortByTimestamp]
  | cons x rest ih =>
    simp [sortByTimestamp, mem_insertByTimestamp, ih]

theorem processLoop_entries (todo : List LedgerEntry) (l : Ledger) :
    (Ledger.processLoop todo l).1.entries =
      l.entries ++ (Ledger.processLoop todo l).2 := by
  induction todo generalizing l with
  | nil => simp [Ledger.processLoop]
  | cons e rest ih =>
    by_cases hv : e.is_valid
    · simp [Ledger.processLoop, hv, ih]
    · simp [Ledger.processLoop, hv, ih]

theorem processLoop_node_id (todo : List LedgerEntry) (l : Ledger) :
    (Ledger.processLoop todo l).1.node_id = l.node_id := by
  induction todo generalizing l with
  | nil => simp [Ledger.processLoop]
  | cons e rest ih =>
    by_cases hv : e.is_valid
    · simp [Ledger.processLoop, hv, ih]
    · simp [Ledger.processLoop, hv, ih]

theorem processLoop_known_nodes (todo : List LedgerEntry) (l : Ledger) :
    (Ledger.processLoop todo l).1.known_nodes = l.known_nodes := by
  induction todo generalizing l with
  | nil => simp [Ledger.processLoop]
  | cons e rest ih =>
    by_cases hv : e.is_valid
    · simp [Ledger.processLoop, hv, ih]
    · simp [Ledger.processLoop, hv, ih]

theorem processLoop_added_mem {todo : List LedgerEntry} {l : Ledger}
    {e : LedgerEntry} (h : e ∈ (Ledger.processLoop todo l).2) : e ∈ todo := by
  induction todo generalizing l with
  | nil => simp [Ledger.processLoop] at h
  | cons a rest ih =>
    by_cases hv : a.is_valid
    · simp only [Ledger.processLoop, hv, if_true, List.mem_cons] at h
      rcases h with h | h
      · simp [h]
      · exact List.mem_cons_of_mem a (ih h)
    · simp only [Ledger.processLoop, hv] at h
      exact List.mem_cons_of_mem a (ih h)

theorem process_known_nodes (l : Ledger) :
    l.process_pending_entries.1.known_nodes = l.known_nodes := by
  unfold Ledger.process_pending_entries
  cases l.entries.getLast? with
  | none => rfl
  | some tip => simp [processLoop_known_nodes]

theorem process_node_id (l : Ledger) :
    l.process_pending_entries.1.node_id = l.node_id := by
  unfold Ledger.process_pending_entries
  cases l.entries.getLast? with
  | none => rfl
  | some tip => simp [processLoop_node_id]

/-- C6: `add_entry` (submit) never fails, appends exactly one entry whose
`previous_hash` is the prior tip's hash — or the genesis sentinel if the
chain was empty — and leaves every existing chain entry unmodified. -/
theorem add_entry_appends_one (l : Ledger) (data : String) (now : Nat) :
    (l.add_entry data now).2 =
      Except.ok (LedgerEntry.new data (tipHash l) l.node_id now) ∧
    (l.add_entry data now).1.entries =
      l.entries ++ [LedgerEntry.new data (tipHash l) l.node_id now] ∧
    (l.add_entry data now).1.entries.length = l.entries.length + 1 ∧
    (LedgerEntry.new data (tipHash l) l.node_id now).previous_hash =
      tipHash l ∧
    (l.entries = [] → tipHash l = zeros64) ∧
    (∀ tip, l.entries.getLast? = some tip → tipHash l = tip.hash) := by
  refine ⟨rfl, rfl, by simp [Ledger.add_entry], rfl, ?_, ?_⟩
  · intro h
    simp [tipHash, h]
  · intro tip h
    simp [tipHash, h]

/-- Witness for `add_entry_appends_one` on a fresh ledger. -/
theorem add_entry_appends_one_witness :
    ((Ledger.new "n").add_entry "a" 0).2 =
      Except.ok (LedgerEntry.new "a" (tipHash (Ledger.new "n")) "n" 0) ∧
    tipHash (Ledger.new "n") = zeros64 :=
  ⟨(add_entry_appends_one (Ledger.new "n") "a" 0).1,
   (add_entry_appends_one (Ledger.new "n") "a" 0).2.2.2.2.1 rfl⟩

/-- C7: `is_valid` holds exactly when the digest recomputed over
`(id, timestamp, data, previous_hash, creator_node_id)` equals the
stored `hash`; for a valid entry, changing any one of those five fields
without recomputing the hash falsifies `is_valid`. -/
theorem is_valid_iff_digest (e : LedgerEntry) :
    (e.is_valid = true ↔ e.calculate_hash = e.hash) ∧
    (e.is_valid = true →
      (∀ v, v ≠ e.id →
        ({ e with id := v } : LedgerEntry).is_valid = false) ∧
      (∀ t, t ≠ e.timestamp →
        ({ e with timestamp := t } : LedgerEntry).is_valid = false) ∧
      (∀ v, v ≠ e.data →
        ({ e with data := v } : LedgerEntry).is_valid = false) ∧
      (∀ v, v ≠ e.previous_hash →
        ({ e with previous_hash := v } : LedgerEntry).is_valid = false) ∧
      (∀ v, v ≠ e.creator_node_id →
        ({ e with creator_node_id := v } : LedgerEntry).is_valid = false)) := by
  obtain ⟨i, ts, d, ph, h, cr, sg⟩ := e
  constructor
  · simp only [LedgerEntry.is_valid, beq_iff_eq]
    exact eq_comm
  · intro hval
    have hv : h = LedgerEntry.calculate_hash ⟨i, ts, d, ph, h, cr, sg⟩ := by
      simpa [LedgerEntry.is_valid] using hval
    simp only [LedgerEntry.calculate_hash] at hv
    refine ⟨?_, ?_, ?_, ?_, ?_⟩
    · intro v hne
      simp only [LedgerEntry.is_valid, beq_eq_false_iff_ne]
      intro heq
      simp only [LedgerEntry.calculate_hash] at heq
      rw [hv] at heq
      have := str_append_right_cancel (hashStr_inj heq)
      exact hne this.symm
    · intro t hne
      simp only [LedgerEntry.is_valid, beq_eq_false_iff_ne]
      intro heq
      simp only [LedgerEntry.calculate_hash] at heq
      rw [hv] at heq
      have h1 := str_append_left_cancel (hashStr_inj heq)
      have h2 := str_append_right_cancel h1
      exact hne (to_rfc3339_inj h2).symm
    · intro v hne
      simp only [LedgerEntry.is_valid, beq_eq_false_iff_ne]
      intro heq
      simp only [LedgerEntry.calculate_hash] at heq
      rw [hv] at heq
      have h1 := str_append_left_cancel (hashStr_inj heq)
      have h2 := str_append_left_cancel h1
      have h3 := str_append_right_cancel h2
      exact hne h3.symm
    · intro v hne
      simp only [LedgerEntry.is_valid, beq_eq_false_iff_ne]
      intro heq
      simp only [LedgerEntry.calculate_hash] at heq
      rw [hv] at heq
      have h1 := str_append_left_cancel (hashStr_inj heq)
      have h2 := str_append_left_cancel h1
      have h3 := str_append_left_cancel h2
      have h4 := str_append_right_cancel h3
      exact hne h4.symm
    · intro v hne
      simp only [LedgerEntry.is_valid, beq_eq_false_iff_ne]
      intro heq
      simp only [LedgerEntry.calculate_hash] at heq
      rw [hv] at heq
      have h1 := str_append_left_cancel (hashStr_inj heq)
      have h2 := str_append_left_cancel h1
      have h3 := str_append_left_cancel h2
      have h4 := str_append_left_cancel h3
      exact hne h4.symm

/-- Witness for `is_valid_iff_digest` on a concrete valid entry. -/
theorem is_valid_iff_digest_witness :
    ((LedgerEntry.new "d" zeros64 "n" 0).is_valid = true ↔
      (LedgerEntry.new "d" zeros64 "n" 0).calculate_hash =
        (LedgerEntry.new "d" zeros64 "n" 0).hash) ∧
    ({ LedgerEntry.new "d" zeros64 "n" 0 with id := "z" } :
      LedgerEntry).is_valid = false ∧
    ({ LedgerEntry.new "d" zeros64 "n" 0 with timestamp := 5 } :
      LedgerEntry).is_valid = false ∧
    ({ LedgerEntry.new "d" zeros64 "n" 0 with data := "q" } :
      LedgerEntry).is_valid = false ∧
    ({ LedgerEntry.new "d" zeros64 "n" 0 with previous_hash := "q" } :
      LedgerEntry).is_valid = false ∧
    ({ LedgerEntry.new "d" zeros64 "n" 0 with creator_node_id := "q" } :
      LedgerEntry).is_valid = false :=
  ⟨(is_valid_iff_digest (LedgerEntry.new "d" zeros64 "n" 0)).1,
   ((is_valid_iff_digest (LedgerEntry.new "d" zeros64 "n" 0)).2
     (by decide)).1 "z" (by decide),
   ((is_valid_iff_digest (LedgerEntry.new "d" zeros64 "n" 0)).2
     (by decide)).2.1 5 (by decide),
   ((is_valid_iff_digest (LedgerEntry.new "d" zeros64 "n" 0)).2
     (by decide)).2.2.1 "q" (by decide),
   ((is_valid_iff_digest (LedgerEntry.new "d" zeros64 "n" 0)).2
     (by decide)).2.2.2.1 "q" (by decide),
   ((is_valid_iff_digest (LedgerEntry.new "d" zeros64 "n" 0)).2
     (by decide)).2.2.2.2 "q" (by decide)⟩

/-- C10: `add_signature` touches only the signatures map — inserting or
overwriting the given node's signature — and leaves every hashed field,
the stored hash, the recomputed digest and hence `is_valid` unchanged. -/
theorem add_signature_frame (e : LedgerEntry) (k v : String) :
    (e.add_signature k v).id = e.id ∧
    (e.add_signature k v).timestamp = e.timestamp ∧
    (e.add_signature k v).data = e.data ∧
    (e.add_signature k v).previous_hash = e.previous_hash ∧
    (e.add_signature k v).hash = e.hash ∧
    (e.add_signature k v).creator_node_id = e.creator_node_id ∧
    (e.add_signature k v).calculate_hash = e.calculate_hash ∧
    (e.add_signature k v).is_valid = e.is_valid ∧
    mapGet (e.add_signature k v).signatures k = some v ∧
    (∀ k2, k2 ≠ k →
      mapGet (e.add_signature k v).signatures k2 = mapGet e.signatures k2) := by
  refine ⟨rfl, rfl, rfl, rfl, rfl, rfl, rfl, rfl, ?_, ?_⟩
  · exact mapGet_mapInsert_self e.signatures k v
  · intro k2 h
    exact mapGet_mapInsert_ne e.signatures k k2 v h

/-- Witness for `add_signature_frame` on a concrete entry. -/
theorem add_signature_frame_witness :
    ((LedgerEntry.new "d" zeros64 "n" 0).add_signature "p" "s").is_valid =
      (LedgerEntry.new "d" zeros64 "n" 0).is_valid ∧
    mapGet ((LedgerEntry.new "d" zeros64 "n" 0).add_signature "p" "s").signatures
      "p" = some "s" ∧
    mapGet ((LedgerEntry.new "d" zeros64 "n" 0).add_signature "p" "s").signatures
      "q" = mapGet (LedgerEntry.new "d" zeros64 "n" 0).signatures "q" :=
  ⟨(add_signature_frame (LedgerEntry.new "d" zeros64 "n" 0) "p" "s").2.2.2.2.2.2.2.1,
   (add_signature_frame (LedgerEntry.new "d" zeros64 "n" 0) "p" "s").2.2.2.2.2.2.2.2.1,
   (add_signature_frame (LedgerEntry.new "d" zeros64 "n" 0) "p" "s").2.2.2.2.2.2.2.2.2
     "q" (by decide)⟩

/-- C9: every reachable ledger state keeps the local node id in the
known-nodes set; `add_known_node` on an already-present id leaves the
set (and so its cardinality) unchanged; no operation removes an id. -/
theorem known_nodes_invariant :
    (∀ l : Ledger, Reach l → l.node_id ∈ l.known_nodes) ∧
    (∀ (l : Ledger) (n : String), n ∈ l.known_nodes →
      (l.add_known_node n).known_nodes = l.known_nodes ∧
      (l.add_known_node n).known_nodes.length = l.known_nodes.length) ∧
    (∀ (l : Ledger) (x : String), x ∈ l.known_nodes →
      (∀ (d : String) (t : Nat), x ∈ (l.add_entry d t).1.known_nodes) ∧
      (∀ e : LedgerEntry, x ∈ (l.add_pending_entry e).known_nodes) ∧
      x ∈ l.process_pending_entries.1.known_nodes ∧
      (∀ n : String, x ∈ (l.add_known_node n).known_nodes)) := by
  have hmono : ∀ (l : Ledger) (x : String), x ∈ l.known_nodes →
      (∀ (d : String) (t : Nat), x ∈ (l.add_entry d t).1.known_nodes) ∧
      (∀ e : LedgerEntry, x ∈ (l.add_pending_entry e).known_nodes) ∧
      x ∈ l.process_pending_entries.1.known_nodes ∧
      (∀ n : String, x ∈ (l.add_known_node n).known_nodes) := by
    intro l x hx
    refine ⟨?_, ?_, ?_, ?_⟩
    · intro d t
      simpa [Ledger.add_entry] using hx
    · intro e
      simpa [Ledger.add_pending_entry] using hx
    · rw [process_known_nodes]
      exact hx
    · intro n
      by_cases hn : n ∈ l.known_nodes
      · simpa [Ledger.add_known_node, hn] using hx
      · simp [Ledger.add_known_node, hn, hx]
  refine ⟨?_, ?_, hmono⟩
  · intro l h
    induction h with
    | new node_id => simp [Ledger.new]
    | add_entry l d t _ ih =>
      simpa [Ledger.add_entry] using ih
    | add_pending l e _ ih =>
      simpa [Ledger.add_pending_entry] using ih
    | process l _ ih =>
      rw [process_known_nodes, process_node_id]
      exact ih
    | add_known l n _ ih =>
      by_cases hn : n ∈ l.known_nodes
      · simpa [Ledger.add_known_node, hn] using ih
      · simp [Ledger.add_known_node, hn, ih]
  · intro l n hn
    constructor
    · simp [Ledger.add_known_node, hn]
    · simp [Ledger.add_known_node, hn]

/-- Witness for `known_nodes_invariant` on a fresh ledger. -/
theorem known_nodes_invariant_witness :
    (Ledger.new "n").node_id ∈ (Ledger.new "n").known_nodes ∧
    ((Ledger.new "n").add_known_node "n").known_nodes =
      (Ledger.new "n").known_nodes ∧
    "n" ∈ ((Ledger.new "n").add_pending_entry
      (LedgerEntry.new "d" zeros64 "m" 0)).known_nodes :=
  ⟨known_nodes_invariant.1 (Ledger.new "n") (Reach.new "n"),
   (known_nodes_invariant.2.1 (Ledger.new "n") "n" (by decide)).1,
   (known_nodes_invariant.2.2 (Ledger.new "n") "n" (by decide)).2.1
     (LedgerEntry.new "d" zeros64 "m" 0)⟩

/-! The fork scenario: one genesis entry on the chain, two distinct
valid pending entries that both declare the tip as their previous
hash. -/

/-- The first (locally submitted) chain entry of the fork scenario. -/
def forkE0 : LedgerEntry := LedgerEntry.new "a" zeros64 "n" 0

/-- Ledger after `Ledger::new("n")` and one `add_entry`. -/
def forkL1 : Ledger := ((Ledger.new "n").add_entry "a" 0).1

/-- First fork sibling, as node "m" would build it at t = 1. -/
def forkP1 : LedgerEntry := LedgerEntry.new "x" forkE0.hash "m" 1

/-- Second fork sibling, as node "m" would build it at t = 2. -/
def forkP2 : LedgerEntry := LedgerEntry.new "y" forkE0.hash "m" 2

/-- Ledger with both siblings in the pending pool. -/
def forkL2 : Ledger := (forkL1.add_pending_entry forkP1).add_pending_entry forkP2

/-- Ledger after one `process_pending_entries` call on the fork state. -/
def forkLbad : Ledger := forkL2.process_pending_entries.1

/-- C1 counterexample: on a pool of two distinct valid siblings of the
tip, one `process_pending_entries` call links BOTH (not exactly one),
and the pool is left empty (nothing is stranded). -/
theorem fork_both_linked_cx :
    forkP1.is_valid = true ∧
    forkP2.is_valid = true ∧
    forkP1 ≠ forkP2 ∧
    forkP1.previous_hash = tipHash forkL1 ∧
    forkP2.previous_hash = tipHash forkL1 ∧
    forkP1.timestamp < forkP2.timestamp ∧
    forkL2.process_pending_entries.2 = [forkP1, forkP2] ∧
    forkLbad.pending_entries = [] := by
  decide

/-- C1 as amended: with two distinct valid entries both pointing at the
tip, a single `process_pending_entries` call links both of them, in
timestamp order, and the pool retains neither. -/
theorem fork_both_linked (l : Ledger) (tip B C : LedgerEntry)
    (htip : l.entries.getLast? = some tip)
    (hpool : l.pending_entries = [(B.id, B), (C.id, C)])
    (hid : B.id ≠ C.id)
    (hBprev : B.previous_hash = tip.hash)
    (hCprev : C.previous_hash = tip.hash)
    (hBval : B.is_valid = true)
    (hCval : C.is_valid = true)
    (hts : B.timestamp ≤ C.timestamp) :
    l.process_pending_entries.2 = [B, C] ∧
    l.process_pending_entries.1.entries = l.entries ++ [B, C] ∧
    l.process_pending_entries.1.pending_entries = [] := by
  have hBf : (B.previous_hash == tip.hash) = true := by simp [hBprev]
  have hCf : (C.previous_hash == tip.hash) = true := by simp [hCprev]
  have hCB : (C.id == B.id) = false := by
    rw [beq_eq_false_iff_ne]
    exact Ne.symm hid
  have hstep : l.process_pending_entries =
      ({ l with entries := l.entries ++ [B] ++ [C], pending_entries := [] },
       [B, C]) := by
    simp [Ledger.process_pending_entries, htip, hpool, List.filter, hBf, hCf,
      sortByTimestamp, insertByTimestamp, hts, Ledger.processLoop, hBval,
      hCval, hCB]
  rw [hstep]
  refine ⟨rfl, by simp, rfl⟩

/-- Witness for `fork_both_linked` at the concrete fork scenario. -/
theorem fork_both_linked_witness :
    forkL2.process_pending_entries.2 = [forkP1, forkP2] ∧
    forkL2.process_pending_entries.1.entries =
      forkL2.entries ++ [forkP1, forkP2] ∧
    forkL2.process_pending_entries.1.pending_entries = [] :=
  fork_both_linked forkL2 forkE0 forkP1 forkP2 (by decide) (by decide)
    (by decide) (by decide) (by decide) (by decide) (by decide) (by decide)

/-- C2: the fork state is reachable and breaks the chain invariant —
after one reconcile both siblings sit on the chain and the third
entry's `previous_hash` is not the second entry's hash. -/
theorem chain_invariant_violated :
    Reach forkLbad ∧
    chainOk forkLbad.entries = false ∧
    forkP1.is_valid = true ∧
    forkP2.is_valid = true := by
  refine ⟨?_, by decide, by decide, by decide⟩
  exact Reach.process _ (Reach.add_pending _ _ (Reach.add_pending _ _
    (Reach.add_entry _ "a" 0 (Reach.new "n"))))

/-! The empty-chain scenario: a valid genesis entry sits in the pending
pool of a ledger whose chain is empty. -/

/-- The valid genesis entry E1 announced to the empty node. -/
def c3E1 : LedgerEntry := LedgerEntry.new "d" zeros64 "a" 0

/-- Empty ledger of node "b" holding E1 in its pending pool. -/
def c3L : Ledger := (Ledger.new "b").add_pending_entry c3E1

/-- C3 counterexample: with an empty chain and a valid pending entry
whose `previous_hash` is the genesis sentinel, `process_pending_entries`
links nothing — the chain stays empty, not `[E1]`. -/
theorem empty_chain_reconcile_cx :
    c3L.entries = [] ∧
    c3E1.is_valid = true ∧
    c3E1.previous_hash = zeros64 ∧
    mapGet c3L.pending_entries c3E1.id = some c3E1 ∧
    c3L.process_pending_entries.2 = [] ∧
    c3L.process_pending_entries.1.entries = [] ∧
    c3L.process_pending_entries.1.entries ≠ [c3E1] ∧
    c3L.process_pending_entries.1.pending_entries = c3L.pending_entries := by
  decide

/-- C3 as amended: on an empty chain `process_pending_entries` returns
immediately — no entry is linked and the ledger is unchanged. -/
theorem empty_chain_reconcile_noop (l : Ledger) (h : l.entries = []) :
    l.process_pending_entries = (l, []) := by
  unfold Ledger.process_pending_entries
  rw [h]
  rfl

/-- Witness for `empty_chain_reconcile_noop` at the concrete scenario. -/
theorem empty_chain_reconcile_noop_witness :
    c3L.process_pending_entries = (c3L, []) :=
  empty_chain_reconcile_noop c3L rfl

/-- C4: `process_pending_entries` is single-pass — every appended entry
points at the tip captured at call start; in the two-hop scenario
(`B` on the tip, `C` on `B`) the first call links only `B` and leaves
`C` pending, and a second call links `C`. -/
theorem reconcile_single_pass :
    (∀ (l : Ledger) (tip : LedgerEntry), l.entries.getLast? = some tip →
      ∀ e ∈ l.process_pending_entries.2, e.previous_hash = tip.hash) ∧
    (∀ (l : Ledger) (tip B C : LedgerEntry),
      l.entries.getLast? = some tip →
      l.pending_entries = [(B.id, B), (C.id, C)] →
      B.id ≠ C.id →
      B.previous_hash = tip.hash →
      C.previous_hash = B.hash →
      B.hash ≠ tip.hash →
      B.is_valid = true → C.is_valid = true →
      l.process_pending_entries.2 = [B] ∧
      l.process_pending_entries.1.entries = l.entries ++ [B] ∧
      l.process_pending_entries.1.pending_entries = [(C.id, C)] ∧
      l.process_pending_entries.1.process_pending_entries.2 = [C] ∧
      l.process_pending_entries.1.process_pending_entries.1.entries =
        l.entries ++ [B, C] ∧
      l.process_pending_entries.1.process_pending_entries.1.pending_entries
        = []) := by
  constructor
  · intro l tip htip e he
    simp only [Ledger.process_pending_entries, htip] at he
    have h1 := processLoop_added_mem he
    rw [mem_sortByTimestamp] at h1
    exact eq_of_beq (List.mem_filter.mp h1).2
  · intro l tip B C htip hpool hid hBprev hCprev hBtip hBval hCval
    have hBf : (B.previous_hash == tip.hash) = true := by simp [hBprev]
    have hCf : (C.previous_hash == tip.hash) = false := by
      rw [beq_eq_false_iff_ne, hCprev]
      exact hBtip
    have hCB : (C.id == B.id) = false := by
      rw [beq_eq_false_iff_ne]
      exact Ne.symm hid
    have hstep1 : l.process_pending_entries =
        ({ l with entries := l.entries ++ [B],
                  pending_entries := [(C.id, C)] }, [B]) := by
      simp [Ledger.process_pending_entries, htip, hpool, List.filter, hBf,
        hCf, sortByTimestamp, insertByTimestamp, Ledger.processLoop, hBval,
        hCB]
    have htip2 : (l.entries ++ [B]).getLast? = some B := by
      simp
    have hCf2 : (C.previous_hash == B.hash) = true := by simp [hCprev]
    have hstep2 :
        ({ l with entries := l.entries ++ [B],
                  pending_entries := [(C.id, C)] } : Ledger
          ).process_pending_entries =
        ({ l with entries := l.entries ++ [B] ++ [C],
                  pending_entries := [] }, [C]) := by
      simp [Ledger.process_pending_entries, htip2, List.filter, hCf2,
        sortByTimestamp, insertByTimestamp, Ledger.processLoop, hCval]
    rw [hstep1]
    refine ⟨rfl, rfl, rfl, ?_, ?_, ?_⟩
    · rw [hstep2]
    · rw [hstep2]
      simp
    · rw [hstep2]

/-- First entry of the two-hop scenario, sitting on the tip. -/
def hopB : LedgerEntry := LedgerEntry.new "x" forkE0.hash "m" 1

/-- Second entry of the two-hop scenario, sitting on `hopB`. -/
def hopC : LedgerEntry := LedgerEntry.new "y" hopB.hash "m" 2

/-- Ledger of the two-hop scenario: chain `[forkE0]`, pool `{B, C}`. -/
def hopL : Ledger := (forkL1.add_pending_entry hopB).add_pending_entry hopC

/-- Witness for `reconcile_single_pass` at a concrete two-hop pool. -/
theorem reconcile_single_pass_witness :
    hopB.previous_hash = forkE0.hash ∧
    hopL.process_pending_entries.2 = [hopB] :=
  ⟨reconcile_single_pass.1 hopL forkE0 (by decide) hopB (by decide),
   (reconcile_single_pass.2 hopL forkE0 hopB hopC (by decide) (by decide)
     (by decide) (by decide) (by decide) (by decide) (by decide)
     (by decide)).1⟩

/-! The peer-to-peer layer (p2p.rs): message types, the protocol
envelope, the dispatcher `handle_message`, and unicast `send_message`. -/

/-- Message types of the p2p protocol (`MessageType` in p2p.rs). -/
inductive MessageType where
  | NodeAnnounce
  | NodeListRequest
  | NodeListResponse
  | EntryAnnounce
  | EntryRequest
  | EntryResponse
  | LedgerSyncRequest
  | LedgerSyncResponse
deriving DecidableEq, Repr

/-- Abstraction of the `serde_json::Value` payload: each constructor
records how the handlers' decoding steps read the document — a payload
that parses as one entry, as an entry list, an object with an optional
`node_id` field, an object with an optional `entry_id` field, a node
list, or anything else (on which every decode attempt fails). -/
inductive Payload where
  | entry (e : LedgerEntry)
  | entries (es : List LedgerEntry)
  | node (node_id : Option String)
  | entryId (id : Option String)
  | nodes (ns : List String)
  | other
deriving DecidableEq, Repr

/-- The protocol envelope (`P2PMessage` in p2p.rs). -/
structure P2PMessage where
  message_type : MessageType
  message_id : String
  sender_id : String
  recipient_id : String
  payload : Payload
deriving DecidableEq, Repr

/-- Mirrors `P2PMessage::new`; the `Uuid::new_v4` message id is modelled
by a counter threaded through the handlers. -/
def P2PMessage.new (mt : MessageType) (sender recipient : String)
    (payload : Payload) (ctr : Nat) : P2PMessage × Nat :=
  ({ message_type := mt
     message_id := "uuid-" ++ toString ctr
     sender_id := sender
     recipient_id := recipient
     payload := payload }, ctr + 1)

/-- The `payload.get("node_id")` extraction with its `"unknown"`
fallback, shared by `handle_connection` and `handle_node_announce`. -/
def payloadNodeId : Payload → String
  | .node (some id) => id
  | _ => "unknown"

/-- Mirrors `P2PManager::handle_node_announce`: register the announced
node id (or the `"unknown"` sentinel) into the known nodes. -/
def handle_node_announce (l : Ledger) (msg : P2PMessage) : Ledger :=
  l.add_known_node (payloadNodeId msg.payload)

/-- Mirrors `P2PManager::handle_node_list_request`: reply with the known
nodes. -/
def handle_node_list_request (nid : String) (l : Ledger) (ctr : Nat)
    (msg : P2PMessage) : Ledger × Nat × List P2PMessage :=
  let r := P2PMessage.new .NodeListResponse nid msg.sender_id
    (.nodes l.known_nodes) ctr
  (l, r.2, [r.1])

/-- Mirrors `P2PManager::handle_entry_announce`: parse the payload as an
entry (silently dropping the message on failure), add it to the pending
pool, reconcile, and broadcast every newly linked entry. -/
def handle_entry_announce (nid : String) (l : Ledger) (ctr : Nat)
    (msg : P2PMessage) : Ledger × Nat × List P2PMessage :=
  match msg.payload with
  | .entry e =>
    let pr := (l.add_pending_entry e).process_pending_entries
    let br := pr.2.foldl (fun acc e2 =>
      let m := P2PMessage.new .EntryAnnounce nid "" (.entry e2) acc.2
      (acc.1 ++ [m.1], m.2)) (([] : List P2PMessage), ctr)
    (pr.1, br.2, br.1)
  | _ => (l, ctr, [])

/-- Mirrors `P2PManager::handle_entry_request`: linear scan of the
chain; reply with the entry if found, otherwise do nothing. -/
def handle_entry_request (nid : String) (l : Ledger) (ctr : Nat)
    (msg : P2PMessage) : Ledger × Nat × List P2PMessage :=
  let entry_id :=
    match msg.payload with
    | .entryId (some id) => id
    | _ => ""
  match l.entries.find? (fun e => e.id == entry_id) with
  | some e =>
    let r := P2PMessage.new .EntryResponse nid msg.sender_id (.entry e) ctr
    (l, r.2, [r.1])
  | none => (l, ctr, [])

/-- Mirrors `P2PManager::handle_ledger_sync_request`: reply with the
full chain. -/
def handle_ledger_sync_request (nid : String) (l : Ledger) (ctr : Nat)
    (msg : P2PMessage) : Ledger × Nat × List P2PMessage :=
  let r := P2PMessage.new .LedgerSyncResponse nid msg.sender_id
    (.entries l.entries) ctr
  (l, r.2, [r.1])

/-- Mirrors `P2PManager::handle_message`: dispatch on the message type.
The Rust `match` has arms for exactly `NodeAnnounce`, `NodeListRequest`,
`EntryAnnounce`, `EntryRequest` and `LedgerSyncRequest`; everything else
(`NodeListResponse`, `EntryResponse`, `LedgerSyncResponse`) falls into
the wildcard arm, which only logs.  The connection table is not touched
by any arm.  The result is the ledger, the id counter and the list of
messages emitted. -/
def handle_message (nid : String) (l : Ledger) (ctr : Nat)
    (msg : P2PMessage) : Ledger × Nat × List P2PMessage :=
  match msg.message_type with
  | .NodeAnnounce => (handle_node_announce l msg, ctr, [])
  | .NodeListRequest => handle_node_list_request nid l ctr msg
  | .EntryAnnounce => handle_entry_announce nid l ctr msg
  | .EntryRequest => handle_entry_request nid l ctr msg
  | .LedgerSyncRequest => handle_ledger_sync_request nid l ctr msg
  | _ => (l, ctr, [])

/-- A connected socket (`SocketRef`); `emitOk` abstracts whether the
underlying `socket.emit` call succeeds. -/
structure SocketRef where
  sid : String
  emitOk : Bool
deriving DecidableEq, Repr

/-- The p2p manager state: node identity, ledger, and the connection
table mapping peer id to socket. -/
structure P2PManager where
  node_id : String
  ledger : Ledger
  connected_nodes : List (String × SocketRef)
deriving DecidableEq, Repr

/-- Mirrors `P2PManager::send_message`: look the recipient up in the
connection table; emit on its socket if present (the boolean is the
emit result), otherwise return false.  Nothing is mutated. -/
def P2PManager.send_message (m : P2PManager) (recipient_id : String)
    (msg : P2PMessage) : Bool × P2PManager :=
  match m.connected_nodes.find? (fun p => p.1 == recipient_id) with
  | some p => (p.2.emitOk, m)
  | none => (false, m)

/-- The sync-response entry of the C5 scenario. -/
def c5E1 : LedgerEntry := LedgerEntry.new "d" zeros64 "a" 0

/-- A `LedgerSyncResponse` envelope carrying one entry. -/
def c5Msg : P2PMessage :=
  { message_type := .LedgerSyncResponse
    message_id := "mid"
    sender_id := "a"
    recipient_id := "b"
    payload := .entries [c5E1] }

/-- C5 counterexample: dispatching a `LedgerSyncResponse` that carries
an entry leaves the ledger untouched — nothing is merged into the
pending pool and nothing is linked, because the dispatcher has no arm
for this message type. -/
theorem ledger_sync_response_cx :
    handle_message "b" (Ledger.new "b") 0 c5Msg =
      (Ledger.new "b", 0, []) ∧
    (handle_message "b" (Ledger.new "b") 0 c5Msg).1.pending_entries = [] ∧
    (handle_message "b" (Ledger.new "b") 0 c5Msg).1.entries = [] := by
  decide

/-- C5 as amended: `LedgerSyncResponse` reaches the dispatcher's
wildcard arm — the ledger and counter are returned unchanged and no
message is emitted. -/
theorem ledger_sync_response_unhandled (nid : String) (l : Ledger)
    (ctr : Nat) (msg : P2PMessage)
    (h : msg.message_type = MessageType.LedgerSyncResponse) :
    handle_message nid l ctr msg = (l, ctr, []) := by
  unfold handle_message
  rw [h]

/-- Witness for `ledger_sync_response_unhandled` at the C5 scenario. -/
theorem ledger_sync_response_unhandled_witness :
    handle_message "b" (Ledger.new "b") 0 c5Msg = (Ledger.new "b", 0, []) :=
  ledger_sync_response_unhandled "b" (Ledger.new "b") 0 c5Msg rfl

/-- C8: sending to a peer id absent from the connection table returns
false and leaves the whole manager state — connection table, chain,
pending pool and known nodes — unchanged. -/
theorem send_message_unknown_recipient (m : P2PManager)
    (recipient_id : String) (msg : P2PMessage)
    (h : ∀ p ∈ m.connected_nodes, p.1 ≠ recipient_id) :
    m.send_message recipient_id msg = (false, m) ∧
    (m.send_message recipient_id msg).2.connected_nodes =
      m.connected_nodes ∧
    (m.send_message recipient_id msg).2.ledger.entries = m.ledger.entries ∧
    (m.send_message recipient_id msg).2.ledger.pending_entries =
      m.ledger.pending_entries ∧
    (m.send_message recipient_id msg).2.ledger.known_nodes =
      m.ledger.known_nodes := by
  have hnone : m.connected_nodes.find? (fun p => p.1 == recipient_id)
      = none := by
    rw [List.find?_eq_none]
    intro p hp
    simp [h p hp]
  unfold P2PManager.send_message
  rw [hnone]
  exact ⟨rfl, rfl, rfl, rfl, rfl⟩

/-- Witness for `send_message_unknown_recipient` on a one-peer table. -/
theorem send_message_unknown_recipient_witness :
    P2PManager.send_message
      { node_id := "n"
        ledger := Ledger.new "n"
        connected_nodes := [("x", { sid := "s1", emitOk := true })] }
      "y" c5Msg =
    (false,
      { node_id := "n"
        ledger := Ledger.new "n"
        connected_nodes := [("x", { sid := "s1", emitOk := true })] }) :=
  (send_message_unknown_recipient
    { node_id := "n"
      ledger := Ledger.new "n"
      connected_nodes := [("x", { sid := "s1", emitOk := true })] }
    "y" c5Msg (by decide)).1

end Gsio
